import Mathlib

/-!
# Verification of the intelligent-document-chat core pipeline

Shallow embedding of the chunking / retrieval / orchestration pipeline of the
repository (backend/app/services/pdf_chunker.py, backend/app/agents/*.py,
backend/app/vectorstore/vector_store.py), together with proofs settling the
frozen claims about it.

Strings are modelled as `List Char`.  Python's whitespace set is modelled by
its ASCII part (space, tab, newline, carriage return, vertical tab, form
feed); none of the proved properties depend on which characters count as
whitespace.  External services (the Gemini LLM and the vector-store search)
are modelled as oracle functions returning `Except Unit (List Char)`-style
results: `.error` models a raised exception, `.ok` a returned value.
-/

namespace DocChat

/-- ASCII part of Python's `str.isspace` / `\s` character class. -/
def isPySpace (c : Char) : Bool :=
  c == ' ' || c == '\t' || c == '\n' || c == '\r' || c == '\x0b' || c == '\x0c'

/-- Sentence-ending punctuation of the chunker's regex `[.!?]`. -/
def isPunct (c : Char) : Bool :=
  c == '.' || c == '!' || c == '?'

/-- Python `str.strip()`: drop leading and trailing whitespace. -/
def stripPy (s : List Char) : List Char :=
  ((s.dropWhile isPySpace).reverse.dropWhile isPySpace).reverse

/-- Python `str.split('\n')`: split on every newline; `''.split('\n') = ['']`. -/
def splitNl : List Char → List (List Char)
  | [] => [[]]
  | c :: rest =>
    if c = '\n' then [] :: splitNl rest
    else
      match splitNl rest with
      | [] => [[c]]
      | l :: ls => (c :: l) :: ls

/-- Drop trailing whitespace only (`stripPy` is `stripTrail` after dropping
the leading whitespace). -/
def stripTrail (s : List Char) : List Char :=
  (s.reverse.dropWhile isPySpace).reverse

/-- Append a character to the last piece of a split (helper describing how
`splitNl` reacts to appending one non-newline character). -/
def appendLastNl (ls : List (List Char)) (c : Char) : List (List Char) :=
  match ls with
  | [] => [[c]]
  | [l] => [l ++ [c]]
  | l :: ls => l :: appendLastNl ls c

/-- Normalization of one Python slice index: a negative index counts from the
end of the sequence, and indices are clamped to `[0, length]`. -/
def pyIdx (L : Nat) (i : Int) : Nat :=
  if i < 0 then (i + L).toNat else min i.toNat L

/-- Python slice `s[a:b]` for arbitrary integer bounds. -/
def pySlice (s : List Char) (a b : Int) : List Char :=
  (s.take (pyIdx s.length b)).drop (pyIdx s.length a)

/-- End positions of the matches of the regex `[.!?]\s+` in a string, as
computed by `re.finditer` (`[m.end() for m in re.finditer(r'[.!?]\s+', s)]`).
Because the punctuation class and the whitespace class are disjoint, no
character inside one match can start another, so scanning every position for
"punctuation followed by a maximal whitespace run" yields exactly the
non-overlapping left-to-right matches of `finditer`. -/
def matchEndsFrom : Nat → List Char → List Nat
  | i, c1 :: c2 :: rest =>
    if isPunct c1 && isPySpace c2 then
      (i + 2 + (rest.takeWhile isPySpace).length) :: matchEndsFrom (i + 1) (c2 :: rest)
    else
      matchEndsFrom (i + 1) (c2 :: rest)
  | _, _ => []

/-- Shorthand for `[m.end() for m in re.finditer(r'[.!?]\s+', s)]`. -/
def matchEnds (s : List Char) : List Nat :=
  matchEndsFrom 0 s

/-! ## The chunker (`chunk_text`, pdf_chunker.py lines 30–71)

`int(chunk_size * 0.2)` is embedded as `chunk_size / 5` (natural division):
the two agree for every `chunk_size` below 2·10⁶ (checked exhaustively),
where IEEE-754 rounding of `chunk_size * 0.2` never crosses an integer.
The loop cursor `start` is an `Int` carrying Python's semantics: the update
`start = end - overlap` may in principle make it negative, in which case
subsequent slicing follows Python's negative-index rules (`pySlice`). -/

/-- One boundary computation of `chunk_text`'s loop body (lines 50–62): the
naive boundary `start + chunk_size`, snapped back/forward to the last
sentence ending found in the window `text[end - int(chunk_size*0.2) : end + 100]`
when the naive boundary falls strictly before the end of the text. -/
def chunkEnd (text : List Char) (chunk_size : Nat) (start : Int) : Int :=
  let naiveEnd := start + chunk_size
  if naiveEnd < (text.length : Int) then
    let searchStart := naiveEnd - (chunk_size / 5 : Nat)
    let searchText := pySlice text searchStart (naiveEnd + 100)
    match (matchEnds searchText).getLast? with
    | some m => searchStart + (m : Int)
    | none => naiveEnd
  else naiveEnd

/-- The cursor update of `chunk_text`'s loop (line 69):
`start = end - overlap if end < text_length else text_length`. -/
def chunkNext (text : List Char) (overlap : Nat) (e : Int) : Int :=
  if e < (text.length : Int) then e - overlap else (text.length : Int)

/-- Fueled embedding of `chunk_text`'s `while start < text_length` loop
(lines 42–71), started at cursor `start`.  `none` means the loop has not
finished within `fuel` iterations; `chunk_text text cs ov` itself is the
value `some chunks` obtained for any sufficiently large fuel, when one
exists.  Each iteration emits `text[start:end].strip()` unless it is empty. -/
def chunkTextFuel (text : List Char) (chunk_size overlap : Nat) :
    Nat → Int → Option (List (List Char))
  | 0, start => if start < (text.length : Int) then none else some []
  | fuel + 1, start =>
    if start < (text.length : Int) then
      let e := chunkEnd text chunk_size start
      let chunk := stripPy (pySlice text start e)
      match chunkTextFuel text chunk_size overlap fuel (chunkNext text overlap e) with
      | none => none
      | some rest => some (if chunk = [] then rest else chunk :: rest)
    else some []

/-- One loop iteration of `chunk_text`, with full information: the span
`[start, end)` it sliced and the trimmed chunk it produced (possibly empty,
in which case `chunk_text` does not emit it). -/
structure ChunkIter where
  start : Int
  /-- The (possibly snapped) boundary, Python's `end` variable. -/
  stop : Int
  /-- The trimmed slice `text[start:stop].strip()`. -/
  chunk : List Char
  deriving Repr, DecidableEq

/-- The same loop as `chunkTextFuel`, recording every iteration (also the
ones whose trimmed chunk is empty and is therefore skipped). -/
def chunkItersFuel (text : List Char) (chunk_size overlap : Nat) :
    Nat → Int → Option (List ChunkIter)
  | 0, start => if start < (text.length : Int) then none else some []
  | fuel + 1, start =>
    if start < (text.length : Int) then
      let e := chunkEnd text chunk_size start
      let chunk := stripPy (pySlice text start e)
      match chunkItersFuel text chunk_size overlap fuel (chunkNext text overlap e) with
      | none => none
      | some rest => some (⟨start, e, chunk⟩ :: rest)
    else some []

/-! ## Query agent (`query_agent.py`)

The Gemini call `self.model.generate_content(prompt)` followed by
`response.text` is modelled by an oracle `llm : LLM`; `.error ()` models a
raised exception, `.ok t` a returned response text. -/

/-- Outcome of one LLM call: exception or response text. -/
abbrev LLM := List Char → Except Unit (List Char)

/-- Embeds `QueryAgent.validate_query` (lines 20–31): a query is valid unless it is
empty or shorter than 3 characters once stripped. -/
def validate_query (query : List Char) : Bool :=
  if query = [] ∨ (stripPy query).length < 3 then false else true

/-- The rephrasing prompt of `QueryAgent.rephrase_query` (lines 45–50). -/
def rephrasePrompt (query : List Char) : List Char :=
  ("Rephrase the following question to be clear, specific, and optimized for semantic search in a document database. \nKeep it concise and maintain the original intent.\n\nOriginal question: ").toList
    ++ query ++ ("\n\nRephrased question:").toList

/-- Embeds `QueryAgent.rephrase_query` (lines 33–58). -/
def rephrase_query (llm : LLM) (query : List Char) : List Char :=
  if validate_query query = false then query
  else
    match llm (rephrasePrompt query) with
    | .error _ => query
    | .ok t =>
      let rephrased := stripPy t
      if rephrased = [] then query else rephrased

/-- Embeds `QueryAgent.process_query` (lines 60–72): `none` models Python `None`. -/
def process_query (llm : LLM) (query : List Char) : Option (List Char) :=
  if validate_query query = false then none
  else some (rephrase_query llm query)

/-! ## Response agent (`response_agent.py`) -/

/-- A retrieved chunk as consumed by `ResponseAgent.format_context`: the
dictionary keys `'content'`, `'text'` and `metadata['source']` it reads
(`.get` misses modelled by `none`). -/
structure PyChunk where
  content : Option (List Char)
  text : Option (List Char)
  source : Option (List Char)
  deriving Repr, DecidableEq

/-- One numbered context block of `ResponseAgent.format_context` (lines 33–40),
`f"[Context {i}] (Source: {source})\n{content}\n"` with
`content = chunk.get('content', chunk.get('text', ''))` and
`source = chunk.get('metadata', {}).get('source', 'Unknown')`. -/
def contextPart (i : Nat) (chunk : PyChunk) : List Char :=
  ("[Context ").toList ++ (toString i).toList ++ ("] (Source: ").toList
    ++ chunk.source.getD ("Unknown").toList ++ (")\n").toList
    ++ chunk.content.getD (chunk.text.getD []) ++ ("\n").toList

/-- Embeds `ResponseAgent.format_context` (lines 20–42). -/
def format_context (chunks : List PyChunk) : List Char :=
  if chunks = [] then ("No relevant context found.").toList
  else List.intercalate ('\n' :: []) (chunks.enum.map fun p => contextPart (p.1 + 1) p.2)

/-- The answer-generation prompt of `ResponseAgent.generate_response`
(lines 56–70). -/
def responsePrompt (context query : List Char) : List Char :=
  ("You are a helpful AI assistant that answers questions based on the provided context.\n\nContext from documents:\n").toList
    ++ context
    ++ ("\n\nUser Question: ").toList ++ query
    ++ ("\n\nInstructions:\n- Answer the question using ONLY the information from the provided context\n- If the context doesn\x27t contain enough information to answer the question, say so clearly\n- Be concise but comprehensive\n- Cite which context section(s) you used if relevant\n- If multiple contexts provide information, synthesize them coherently\n\nAnswer:").toList

/-- Embeds `ResponseAgent.generate_response` (lines 44–76).  On an LLM exception the
Python code returns `f"Error generating response: {str(e)}"`; the exception
text is not modelled, only the error-string prefix. -/
def generate_response (llm : LLM) (query : List Char) (context_chunks : List PyChunk) :
    List Char :=
  match llm (responsePrompt (format_context context_chunks) query) with
  | .ok t => stripPy t
  | .error _ => ("Error generating response: ").toList

/-- The follow-up prompt of `ResponseAgent.generate_followup_questions`
(lines 88–93). -/
def followupPrompt (query response : List Char) : List Char :=
  ("Based on this Q&A, suggest 3 relevant follow-up questions the user might ask:\n\nQuestion: ").toList
    ++ query ++ ("\nAnswer: ").toList ++ response
    ++ ("\n\nProvide only the questions, one per line, without numbering.").toList

/-- Embeds `ResponseAgent.generate_followup_questions` (lines 78–101):
`[q.strip() for q in result.text.strip().split('\n') if q.strip()][:3]`,
and `[]` when the LLM call raises. -/
def generate_followup_questions (llm : LLM) (query response : List Char) :
    List (List Char) :=
  match llm (followupPrompt query response) with
  | .ok t => (((splitNl (stripPy t)).map stripPy).filter fun q => q ≠ []).take 3
  | .error _ => []

/-! ## Chat orchestrator (`orchestrator.py`) -/

/-- External calls performed by `ChatOrchestrator.process_chat`: a vector
store search, an answer-generation call, a follow-up-generation call. -/
inductive CallEvent where
  | search (query : List Char) (top_k : Nat)
  | genResponse (query : List Char) (chunks : List PyChunk)
  | genFollowup (query response : List Char)
  deriving Repr, DecidableEq

/-- The dictionary returned by `ChatOrchestrator.process_chat`; keys missing
from a branch's dictionary are `none`. -/
structure ChatResult where
  success : Bool
  error : Option (List Char)
  original_query : List Char
  rephrased_query : Option (List Char)
  response : Option (List Char)
  chunks : List PyChunk
  followup_questions : List (List Char)
  num_chunks_retrieved : Option Nat
  deriving Repr, DecidableEq

/-- The vector store's `search(query, top_k)` method as an oracle;
`.error ()` models a raised exception. -/
abbrev SearchFn := List Char → Nat → Except Unit (List PyChunk)

/-- Embeds `ChatOrchestrator.process_chat` (lines 29–78), with `self.vector_store`
passed as `vector_store` (`none` models an unset store).  Besides the result
dictionary it returns the list of external retrieval/generation calls
performed, in order. -/
def process_chat (llm : LLM) (vector_store : Option SearchFn)
    (user_query : List Char) (top_k : Nat) : ChatResult × List CallEvent :=
  match process_query llm user_query with
  | none =>
    ({ success := false
       error := some ("Invalid or empty query. Please provide a meaningful question.").toList
       original_query := user_query
       rephrased_query := none
       response := none
       chunks := []
       followup_questions := []
       num_chunks_retrieved := none }, [])
  | some rephrased_query =>
    let retrieval : List PyChunk × List CallEvent :=
      match vector_store with
      | none => ([], [])
      | some search =>
        match search rephrased_query top_k with
        | .ok cs => (cs, [.search rephrased_query top_k])
        | .error _ => ([], [.search rephrased_query top_k])
    let chunks := retrieval.1
    let response := generate_response llm rephrased_query chunks
    let followup_questions := generate_followup_questions llm user_query response
    ({ success := true
       error := none
       original_query := user_query
       rephrased_query := some rephrased_query
       response := some response
       chunks := chunks
       followup_questions := followup_questions
       num_chunks_retrieved := some chunks.length },
     retrieval.2 ++ [.genResponse rephrased_query chunks, .genFollowup user_query response])

/-! ## Vector store, FAISS fallback backend (`vector_store.py`)

Only the FAISS branch (`use_chroma = False`) is modelled: the ChromaDB
branch delegates every operation to the external `chromadb` client.  Vector
scalars are an arbitrary type `α` (the `float32` values play no role in the
claims) and metadata dictionaries an arbitrary type `β`.  Disk persistence
(`_persist_faiss`) writes the same state out and is a frame no-op on it. -/

/-- One entry of `metadata_store`: `{'id': ..., 'document': ..., 'metadata': ...}`. -/
structure FaissRecord (β : Type) where
  id : List Char
  document : List Char
  metadata : β
  deriving Repr, DecidableEq

/-- The `faiss.IndexFlatL2` index: its dimension and its stored vectors
(`ntotal` is the number of vectors; `index.add` appends rows). -/
structure FaissIndex (α : Type) where
  dimension : Nat
  vectors : List (List α)
  deriving Repr, DecidableEq

/-- The FAISS-backend state of `VectorStoreManager` (fields set by
`_initialize_faiss` and mutated by `_add_to_faiss`). -/
structure FaissStore (α β : Type) where
  index : Option (FaissIndex α)
  id_map : List Char → Option Nat
  metadata_store : Nat → Option (FaissRecord β)
  dimension : Option Nat

/-- Python dictionary update `f[k] = v`. -/
def updFun {γ δ : Type} [DecidableEq γ] (f : γ → Option δ) (k : γ) (v : δ) :
    γ → Option δ :=
  fun x => if x = k then some v else f x

/-- The metadata/id-bookkeeping loop of `_add_to_faiss` (lines 156–163):
`for i, (doc, meta, doc_id) in enumerate(zip(documents, metadatas, ids)):
idx = start_idx + i; id_map[doc_id] = idx; metadata_store[idx] = {...}`
(like `zip`, it stops at the shortest list). -/
def storeRecords {β : Type} :
    List (List Char) → List β → List (List Char) → Nat →
    (List Char → Option Nat) × (Nat → Option (FaissRecord β)) →
    (List Char → Option Nat) × (Nat → Option (FaissRecord β))
  | doc :: docs, meta :: metas, doc_id :: ids, idx, (id_map, md) =>
    storeRecords docs metas ids (idx + 1)
      (updFun id_map doc_id idx, updFun md idx ⟨doc_id, doc, meta⟩)
  | _, _, _, _, st => st

/-- Embeds `VectorStoreManager._add_to_faiss` (lines 136–167): on a first add the
index is created with `dimension = embeddings_array.shape[1]`; then
`start_idx = self.index.ntotal`, the vectors are appended, the bookkeeping
loop runs, the store is persisted, and `ids` is returned. -/
def add_to_faiss {α β : Type} (s : FaissStore α β) (embeddings : List (List α))
    (documents : List (List Char)) (metadatas : List β) (ids : List (List Char)) :
    FaissStore α β × List (List Char) :=
  let idx0 : FaissIndex α :=
    match s.index with
    | none => ⟨(embeddings.headD []).length, []⟩
    | some idx => idx
  let start_idx := idx0.vectors.length
  let idx1 : FaissIndex α := { idx0 with vectors := idx0.vectors ++ embeddings }
  let st := storeRecords documents metadatas ids start_idx (s.id_map, s.metadata_store)
  ({ index := some idx1
     id_map := st.1
     metadata_store := st.2
     dimension := match s.index with
       | none => some (embeddings.headD []).length
       | some _ => s.dimension }, ids)

/-- The FAISS branch of `VectorStoreManager.delete_by_document_id`
(lines 295–299): FAISS does not support efficient deletion, so the code only
prints a warning and leaves the store untouched. -/
def delete_by_document_id_faiss {α β : Type} (s : FaissStore α β)
    (document_id : List Char) : FaissStore α β :=
  s

/-- The FAISS branch of `VectorStoreManager.count` (lines 301–308):
`self.index.ntotal if self.index else 0`. -/
def countFaiss {α β : Type} (s : FaissStore α β) : Nat :=
  match s.index with
  | some idx => idx.vectors.length
  | none => 0

/-! ## Concrete inputs used by witnesses and counterexamples -/

/-- The 18-character text `"aaaaaaaaaaaa. bbbb"` on which `chunk_text`'s
loop never terminates for `chunk_size = 15`, `overlap = 14`. -/
def c1Text : List Char :=
  ['a', 'a', 'a', 'a', 'a', 'a', 'a', 'a', 'a', 'a', 'a', 'a', '.', ' ',
   'b', 'b', 'b', 'b']

/-- Witness store for C9: a FAISS store holding one record with id `"a"`. -/
def c9Store : FaissStore Int Unit :=
  (add_to_faiss ⟨none, fun _ => none, fun _ => none, none⟩
    [[1]] [['d']] [()] [['a']]).1

/-! ## Claims about the agents and the orchestrator -/

/-- C4: a query the Query Rewriter rejects (empty, or shorter than 3
characters after trimming) makes `ChatOrchestrator.process_chat` return
`success = false` with the original query, empty chunks and empty follow-up
questions, and no retrieval, answer-generation or follow-up-generation call
is performed. -/
theorem c4_rejected_short_circuit (llm : LLM) (vector_store : Option SearchFn)
    (user_query : List Char) (top_k : Nat)
    (hrej : user_query = [] ∨ (stripPy user_query).length < 3) :
    (process_chat llm vector_store user_query top_k).1.success = false ∧
    (process_chat llm vector_store user_query top_k).1.original_query = user_query ∧
    (process_chat llm vector_store user_query top_k).1.chunks = [] ∧
    (process_chat llm vector_store user_query top_k).1.followup_questions = [] ∧
    (process_chat llm vector_store user_query top_k).2 = [] := by
  have hv : validate_query user_query = false := by
    simp only [validate_query, if_pos hrej]
  simp [process_chat, process_query, hv]

/-- Witness for C4 at the concrete rejected query `"hi"`. -/
theorem c4_witness :
    (process_chat (fun _ => .error ()) none ['h', 'i'] 5).1.success = false ∧
    (process_chat (fun _ => .error ()) none ['h', 'i'] 5).2 = [] := by
  have h := c4_rejected_short_circuit (fun _ => .error ()) none ['h', 'i'] 5
    (Or.inr (by decide))
  exact ⟨h.1, h.2.2.2.2⟩

/-- C5: on a valid rephrased query, a vector-store search that raises is
caught by `process_chat` and treated as zero retrieved chunks: answer
generation is still invoked with an empty chunk list and the call returns
`success = true`, `chunks = []`, `num_chunks_retrieved = 0` instead of
propagating the exception. -/
theorem c5_retrieval_error_degrades (llm : LLM) (search : SearchFn)
    (user_query rq : List Char) (top_k : Nat)
    (hpq : process_query llm user_query = some rq)
    (hs : search rq top_k = .error ()) :
    (process_chat llm (some search) user_query top_k).1.success = true ∧
    (process_chat llm (some search) user_query top_k).1.chunks = [] ∧
    (process_chat llm (some search) user_query top_k).1.num_chunks_retrieved = some 0 ∧
    (process_chat llm (some search) user_query top_k).1.response
      = some (generate_response llm rq []) ∧
    CallEvent.genResponse rq [] ∈ (process_chat llm (some search) user_query top_k).2 := by
  simp [process_chat, hpq, hs]

/-- Witness for C5: the LLM oracle fails (so the rephrased query is the
original `"abc"`) and the search oracle raises. -/
theorem c5_witness :
    (process_chat (fun _ => .error ()) (some fun _ _ => .error ())
        ['a', 'b', 'c'] 5).1.success = true ∧
    (process_chat (fun _ => .error ()) (some fun _ _ => .error ())
        ['a', 'b', 'c'] 5).1.chunks = [] ∧
    (process_chat (fun _ => .error ()) (some fun _ _ => .error ())
        ['a', 'b', 'c'] 5).1.num_chunks_retrieved = some 0 := by
  have h := c5_retrieval_error_degrades (fun _ => .error ()) (fun _ _ => .error ())
    ['a', 'b', 'c'] ['a', 'b', 'c'] 5 (by decide) rfl
  exact ⟨h.1, h.2.1, h.2.2.1⟩

/-- C7: on a valid query (non-empty, at least 3 characters after trimming),
`QueryAgent.rephrase_query` returns the original query unchanged whenever
the LLM call raises or its stripped result is empty, and
`QueryAgent.process_query` never returns `None` on a valid query. -/
theorem c7_rephrase_never_blocks (llm : LLM) (query : List Char)
    (hval : validate_query query = true) :
    ((llm (rephrasePrompt query) = .error () ∨
        ∃ t, llm (rephrasePrompt query) = .ok t ∧ stripPy t = []) →
      rephrase_query llm query = query) ∧
    process_query llm query ≠ none := by
  refine ⟨?_, ?_⟩
  · rintro (herr | ⟨t, hok, ht⟩)
    · simp [rephrase_query, hval, herr]
    · simp [rephrase_query, hval, hok, ht]
  · simp [process_query, hval]

/-- Witness for C7 at the valid query `"abc"` with a failing LLM oracle. -/
theorem c7_witness :
    rephrase_query (fun _ => .error ()) ['a', 'b', 'c'] = ['a', 'b', 'c'] ∧
    process_query (fun _ => .error ()) ['a', 'b', 'c'] ≠ none := by
  have h := c7_rephrase_never_blocks (fun _ => .error ()) ['a', 'b', 'c'] (by decide)
  exact ⟨h.1 (Or.inl rfl), h.2⟩

/-! ## Claims about the FAISS fallback backend -/

/-- C8: on the FAISS fallback backend, `delete_by_document_id` is a pure
no-op for every document id: index, id map, metadata store and `count()`
are all unchanged (only a warning is printed), and nothing is raised. -/
theorem c8_faiss_delete_noop {α β : Type} (s : FaissStore α β) (document_id : List Char) :
    delete_by_document_id_faiss s document_id = s ∧
    (delete_by_document_id_faiss s document_id).index = s.index ∧
    (delete_by_document_id_faiss s document_id).id_map = s.id_map ∧
    (delete_by_document_id_faiss s document_id).metadata_store = s.metadata_store ∧
    countFaiss (delete_by_document_id_faiss s document_id) = countFaiss s :=
  ⟨rfl, rfl, rfl, rfl, rfl⟩

/-- Running `storeRecords` leaves the id-map lookup of any id not in the processed
list unchanged. -/
theorem storeRecords_fst_of_notMem {β : Type} :
    ∀ (docs : List (List Char)) (metas : List β) (ids : List (List Char))
      (idx : Nat)
      (st : (List Char → Option Nat) × (Nat → Option (FaissRecord β)))
      (id : List Char), id ∉ ids →
      (storeRecords docs metas ids idx st).1 id = st.1 id := by
  intro docs
  induction docs with
  | nil => intro metas ids idx st id _; cases metas <;> cases ids <;> rfl
  | cons d ds ih =>
    intro metas ids idx st id hid
    cases metas with
    | nil => cases ids <;> rfl
    | cons m ms =>
      cases ids with
      | nil => rfl
      | cons doc_id ids' =>
        simp only [List.mem_cons, not_or] at hid
        rw [storeRecords, ih ms ids' (idx + 1) _ id hid.2]
        simp [updFun, hid.1]

/-- After `storeRecords`, the `i`-th processed id is mapped to slot
`idx + i` (ids assumed pairwise distinct, id list not longer than the
document/metadata lists, as in a well-formed `add_embeddings` call). -/
theorem storeRecords_fst_get {β : Type} :
    ∀ (ids docs : List (List Char)) (metas : List β) (idx : Nat)
      (st : (List Char → Option Nat) × (Nat → Option (FaissRecord β))),
      ids.Nodup → ids.length ≤ docs.length → ids.length ≤ metas.length →
      ∀ (i : Nat) (hi : i < ids.length),
        (storeRecords docs metas ids idx st).1 (ids.get ⟨i, hi⟩) = some (idx + i) := by
  intro ids
  induction ids with
  | nil => intro docs metas idx st _ _ _ i hi; exact absurd hi (by simp)
  | cons doc_id ids' ih =>
    intro docs metas idx st hnd hd hm i hi
    cases docs with
    | nil => exact absurd hd (by simp)
    | cons d ds =>
      cases metas with
      | nil => exact absurd hm (by simp)
      | cons m ms =>
        simp only [List.nodup_cons] at hnd
        cases i with
        | zero =>
          show (storeRecords (d :: ds) (m :: ms) (doc_id :: ids') idx st).1 doc_id
            = some (idx + 0)
          rw [storeRecords,
            storeRecords_fst_of_notMem ds ms ids' (idx + 1) _ doc_id hnd.1]
          simp [updFun]
        | succ j =>
          have hj : j < ids'.length := by
            simpa [Nat.succ_lt_succ_iff] using hi
          rw [storeRecords]
          have := ih ds ms (idx + 1) (updFun st.1 doc_id idx,
            updFun st.2 idx ⟨doc_id, d, m⟩) hnd.2
            (by simpa using Nat.succ_le_succ_iff.mp hd)
            (by simpa using Nat.succ_le_succ_iff.mp hm) j hj
          simpa [Nat.add_assoc, Nat.add_comm 1 j] using this

/-- C9: adding `k` records whose ids are already present to the FAISS
backend appends `k` duplicate vectors instead of overwriting: `count()`
grows by exactly `k`, and the id map repoints each id to its newest slot
`count + i`. -/
theorem c9_faiss_duplicate_append {α β : Type} (s : FaissStore α β)
    (embeddings : List (List α)) (documents : List (List Char))
    (metadatas : List β) (ids : List (List Char)) (k : Nat)
    (hemb : embeddings.length = k) (hdoc : documents.length = k)
    (hmeta : metadatas.length = k) (hids : ids.length = k)
    (hnodup : ids.Nodup)
    (hpresent : ∀ id ∈ ids, (s.id_map id).isSome) :
    countFaiss (add_to_faiss s embeddings documents metadatas ids).1
      = countFaiss s + k ∧
    ∀ (i : Nat) (hi : i < k),
      (add_to_faiss s embeddings documents metadatas ids).1.id_map
          (ids.get ⟨i, hids ▸ hi⟩)
        = some (countFaiss s + i) := by
  have hd' : ids.length ≤ documents.length := le_of_eq (hids.trans hdoc.symm)
  have hm' : ids.length ≤ metadatas.length := le_of_eq (hids.trans hmeta.symm)
  constructor
  · rcases hsi : s.index with _ | idx <;>
      simp [add_to_faiss, countFaiss, hsi, hemb]
  · intro i hi
    rcases hsi : s.index with _ | idx
    · have key := storeRecords_fst_get ids documents metadatas 0
        (s.id_map, s.metadata_store) hnodup hd' hm' i (hids ▸ hi)
      simpa [add_to_faiss, hsi, countFaiss] using key
    · have key := storeRecords_fst_get ids documents metadatas idx.vectors.length
        (s.id_map, s.metadata_store) hnodup hd' hm' i (hids ▸ hi)
      simpa [add_to_faiss, hsi, countFaiss] using key

/-- Witness for C9: re-adding id `"a"` to `c9Store` bumps the count from 1
to 2 and repoints the id to the fresh slot 1. -/
theorem c9_witness :
    countFaiss (add_to_faiss c9Store [[2]] [['e']] [()] [['a']]).1
      = countFaiss c9Store + 1 ∧
    (add_to_faiss c9Store [[2]] [['e']] [()] [['a']]).1.id_map ['a']
      = some (countFaiss c9Store + 0) := by
  have h := c9_faiss_duplicate_append c9Store [[2]] [['e']] [()] [['a']] 1
    rfl rfl rfl rfl (by decide) (by decide)
  exact ⟨h.1, h.2 0 (by decide)⟩

/-! ## Basic facts about the string primitives -/

/-- A normalized Python slice index never exceeds the sequence length. -/
theorem pyIdx_le (L : Nat) (i : Int) : pyIdx L i ≤ L := by
  unfold pyIdx
  split <;> omega

/-- Length of a Python slice in terms of its normalized bounds. -/
theorem pySlice_length (s : List Char) (a b : Int) :
    (pySlice s a b).length = pyIdx s.length b - pyIdx s.length a := by
  simp [pySlice, List.length_drop, List.length_take,
    Nat.min_eq_left (pyIdx_le s.length b)]

/-- A position advanced by the length of the slice `s[ss:b]` stays at or
before `b` (for `ss ≤ b`), whatever the signs of the bounds. -/
theorem pyIdx_window (L : Nat) (ss b : Int) (h : ss ≤ b) :
    ss + ((pyIdx L b - pyIdx L ss : Nat) : Int) ≤ b := by
  unfold pyIdx
  split_ifs <;> omega

/-- The length of the slice `s[a:b]` is at most `b - a` for `a ≤ b`. -/
theorem pyIdx_sub_le (L : Nat) (a b : Int) (K : Nat)
    (hab : a ≤ b) (hbK : b ≤ a + K) :
    pyIdx L b - pyIdx L a ≤ K := by
  unfold pyIdx
  split_ifs <;> omega

/-- Every match end reported by `matchEndsFrom i s` lies within `i + s.length`. -/
theorem matchEndsFrom_le (s : List Char) :
    ∀ (i e : Nat), e ∈ matchEndsFrom i s → e ≤ i + s.length := by
  induction s with
  | nil => intro i e he; simp [matchEndsFrom] at he
  | cons c1 t ih =>
    intro i e he
    cases t with
    | nil => simp [matchEndsFrom] at he
    | cons c2 rest =>
      rw [matchEndsFrom] at he
      split at he
      · rcases List.mem_cons.mp he with rfl | he'
        · have hk : (rest.takeWhile isPySpace).length ≤ rest.length :=
            (List.takeWhile_sublist _).length_le
          simp only [List.length_cons]
          omega
        · have := ih (i + 1) e he'
          simp only [List.length_cons] at this ⊢
          omega
      · have := ih (i + 1) e he
        simp only [List.length_cons] at this ⊢
        omega

/-- Stripping never lengthens a string. -/
theorem stripPy_length_le (s : List Char) : (stripPy s).length ≤ s.length :=
  calc (stripPy s).length
      = ((s.dropWhile isPySpace).reverse.dropWhile isPySpace).length := by
        simp [stripPy]
    _ ≤ (s.dropWhile isPySpace).reverse.length :=
        (List.dropWhile_suffix _).sublist.length_le
    _ = (s.dropWhile isPySpace).length := by simp
    _ ≤ s.length := (List.dropWhile_suffix _).sublist.length_le

/-- A prefix of a list with no strippable head has no strippable head. -/
theorem dropWhile_eq_self_of_prefix {p : Char → Bool} {X Y : List Char}
    (hX : X.dropWhile p = X) (hY : Y <+: X) : Y.dropWhile p = Y := by
  cases Y with
  | nil => rfl
  | cons y ys =>
    obtain ⟨t, ht⟩ := hY
    have hpy : p y = false := by
      by_contra hp
      have hp' : p y = true := by
        cases h : p y
        · exact absurd h hp
        · rfl
      rw [← ht] at hX
      simp only [List.cons_append] at hX
      rw [List.dropWhile_cons, if_pos hp'] at hX
      have h1 : (List.dropWhile p (ys ++ t)).length ≤ (ys ++ t).length :=
        (List.dropWhile_suffix _).sublist.length_le
      have h2 := congrArg List.length hX
      simp [List.length_append] at h1 h2
      omega
    simp [List.dropWhile_cons, hpy]

/-- Python's `strip` is idempotent. -/
theorem stripPy_idem (s : List Char) : stripPy (stripPy s) = stripPy s := by
  have hAnl : (s.dropWhile isPySpace).dropWhile isPySpace
      = s.dropWhile isPySpace := List.dropWhile_idempotent _ _
  have hRnl : ((s.dropWhile isPySpace).reverse.dropWhile isPySpace).dropWhile isPySpace
      = (s.dropWhile isPySpace).reverse.dropWhile isPySpace :=
    List.dropWhile_idempotent _ _
  have hpre : ((s.dropWhile isPySpace).reverse.dropWhile isPySpace).reverse
      <+: s.dropWhile isPySpace := by
    have h1 : (s.dropWhile isPySpace).reverse.dropWhile isPySpace
        <:+ (s.dropWhile isPySpace).reverse := List.dropWhile_suffix _
    simpa using List.reverse_prefix.mpr h1
  have hRrev := dropWhile_eq_self_of_prefix hAnl hpre
  simp only [stripPy, hRrev, List.reverse_reverse, hRnl]

/-! ## Facts about the chunker loop body -/

/-- The cursor never moves backwards past the iteration's start: the snapped
boundary is at least the iteration's start cursor. -/
theorem chunkEnd_ge (text : List Char) (cs : Nat) (s : Int) :
    s ≤ chunkEnd text cs s := by
  have hdiv : cs / 5 ≤ cs := Nat.div_le_self cs 5
  simp only [chunkEnd]
  split
  · split
    · omega
    · omega
  · omega

/-- The snapped boundary looks at most 100 characters past the naive one. -/
theorem chunkEnd_le (text : List Char) (cs : Nat) (s : Int) :
    chunkEnd text cs s ≤ s + cs + 100 := by
  simp only [chunkEnd]
  split
  · rename_i hlt
    split
    · rename_i m hm
      have hmem := List.mem_of_mem_getLast? hm
      have hlen := matchEndsFrom_le _ 0 m hmem
      rw [Nat.zero_add, pySlice_length] at hlen
      have hwin := pyIdx_window text.length (s + cs - (cs / 5 : Nat))
        (s + cs + 100) (by omega)
      omega
    · omega
  · omega

/-- Every chunk emitted by one loop iteration has length at most
`chunk_size + 100`. -/
theorem chunk_length_le (text : List Char) (cs : Nat) (s : Int) :
    (stripPy (pySlice text s (chunkEnd text cs s))).length ≤ cs + 100 := by
  have h1 := chunkEnd_ge text cs s
  have h2 := chunkEnd_le text cs s
  have h3 := pyIdx_sub_le text.length s (chunkEnd text cs s) (cs + 100) h1
    (by omega)
  have h4 := stripPy_length_le (pySlice text s (chunkEnd text cs s))
  rw [pySlice_length] at h4
  omega

/-- Once the cursor has reached the text length, the loop is over for any
fuel: the remaining result is the empty chunk list. -/
theorem chunkTextFuel_done (text : List Char) (cs ov : Nat) (s : Int)
    (hs : ¬ s < (text.length : Int)) :
    ∀ fuel, chunkTextFuel text cs ov fuel s = some [] := by
  intro fuel
  cases fuel <;> simp [chunkTextFuel, hs]

/-- A fixed point of the cursor update below the text length makes the loop
run forever: no amount of fuel finishes it. -/
theorem chunkTextFuel_fix (text : List Char) (cs ov : Nat) (s : Int)
    (hs : s < (text.length : Int))
    (hfix : chunkNext text ov (chunkEnd text cs s) = s) :
    ∀ fuel, chunkTextFuel text cs ov fuel s = none := by
  intro fuel
  induction fuel with
  | zero => simp [chunkTextFuel, hs]
  | succ n ih => simp [chunkTextFuel, hs, hfix, ih]

/-! ## Claims about the chunker -/

/-- C1 (code bug): `chunk_text` does **not** terminate for every input with
`chunk_size > overlap ≥ 0`.  On the 18-character text
`"aaaaaaaaaaaa. bbbb"` with `chunk_size = 15`, `overlap = 14` the boundary
snaps to the sentence ending at position 14 and the cursor update
`start = 14 - 14 = 0` leaves the cursor exactly where it was: the loop body
is a fixed point, `start` never reaches the text length, and the loop runs
forever (emitting the same chunk each iteration). -/
theorem c1_nontermination :
    ∀ fuel, chunkTextFuel c1Text 15 14 fuel 0 = none :=
  chunkTextFuel_fix c1Text 15 14 0 (by decide) (by decide)

/-- C2 counterexample: the single-space text has length `1 < 5 = chunk_size`
and is non-empty, yet `chunk_text` terminates (in one iteration) with **no**
chunks — the whole chunk is whitespace-trimmed to emptiness and skipped —
not with exactly one chunk. -/
theorem c2_counterexample :
    chunkTextFuel [' '] 5 0 1 0 = some [] ∧
    (chunkTextFuel [' '] 5 0 1 0).map List.length ≠ some 1 := by
  constructor <;> decide

/-- C2 (amended): chunking the empty text yields the empty sequence, and for
non-empty text shorter than `chunk_size` the loop terminates after a single
iteration with exactly one chunk — the stripped text — unless the text is
entirely whitespace, in which case the stripped chunk is empty, is skipped,
and the result is the empty sequence. -/
theorem c2_short_text (text : List Char) (chunk_size overlap fuel : Nat)
    (hov : overlap < chunk_size) :
    chunkTextFuel [] chunk_size overlap fuel 0 = some [] ∧
    (text ≠ [] → text.length < chunk_size →
      chunkTextFuel text chunk_size overlap (fuel + 1) 0
        = some (if stripPy text = [] then [] else [stripPy text])) := by
  constructor
  · exact chunkTextFuel_done [] chunk_size overlap 0 (by simp) fuel
  · intro hne hlen
    have hL : (0 : Int) < text.length := by
      exact_mod_cast List.length_pos.mpr hne
    have hend : chunkEnd text chunk_size 0 = (chunk_size : Int) := by
      simp only [chunkEnd]
      rw [if_neg (by omega)]
      simp
    have hslice : pySlice text 0 chunk_size = text := by
      have ha : pyIdx text.length 0 = 0 := by
        unfold pyIdx; split <;> omega
      have hb : pyIdx text.length (chunk_size : Int) = text.length := by
        unfold pyIdx; split <;> omega
      simp [pySlice, ha, hb]
    have hnext : chunkNext text overlap (chunk_size : Int) = (text.length : Int) := by
      simp only [chunkNext]
      rw [if_neg (by omega)]
    have hdone := chunkTextFuel_done text chunk_size overlap (text.length : Int)
      (by omega) fuel
    simp only [chunkTextFuel, if_pos hL, hend, hslice, hnext, hdone]

/-- Witness for C2 at the concrete text `"ab"` with `chunk_size = 5`,
`overlap = 0`: exactly one chunk. -/
theorem c2_witness :
    chunkTextFuel ['a', 'b'] 5 0 1 0 = some [['a', 'b']] := by
  have h := (c2_short_text ['a', 'b'] 5 0 0 (by decide)).2 (by decide) (by decide)
  simpa using h

/-- C10: every chunk in a terminating run of `chunk_text` (started at cursor
0 as `chunk_text` does) is non-empty, equal to its own whitespace-trimmed
form, and of length at most `chunk_size + 100` (the sentence-boundary snap
looks at most 100 characters past the naive boundary). -/
theorem c10_chunk_invariants (text : List Char) (chunk_size overlap fuel : Nat)
    (chunks : List (List Char))
    (hrun : chunkTextFuel text chunk_size overlap fuel 0 = some chunks) :
    ∀ c ∈ chunks, c ≠ [] ∧ stripPy c = c ∧ c.length ≤ chunk_size + 100 := by
  suffices h : ∀ (fuel : Nat) (s : Int) (out : List (List Char)),
      chunkTextFuel text chunk_size overlap fuel s = some out →
      ∀ c ∈ out, c ≠ [] ∧ stripPy c = c ∧ c.length ≤ chunk_size + 100 from
    h fuel 0 chunks hrun
  intro fuel
  induction fuel with
  | zero =>
    intro s out h c hc
    by_cases hs : s < (text.length : Int) <;> simp [chunkTextFuel, hs] at h
    subst h
    simp at hc
  | succ n ih =>
    intro s out h c hc
    by_cases hs : s < (text.length : Int)
    · simp only [chunkTextFuel, if_pos hs] at h
      cases hrec : chunkTextFuel text chunk_size overlap n
          (chunkNext text overlap (chunkEnd text chunk_size s)) with
      | none => rw [hrec] at h; exact absurd h (by simp)
      | some rest =>
        rw [hrec] at h
        simp only [Option.some.injEq] at h
        subst h
        by_cases hch : stripPy (pySlice text s (chunkEnd text chunk_size s)) = []
        · rw [if_pos hch] at hc
          exact ih _ rest hrec c hc
        · rw [if_neg hch] at hc
          rcases List.mem_cons.mp hc with rfl | hc'
          · exact ⟨hch, stripPy_idem _, chunk_length_le text chunk_size s⟩
          · exact ih _ rest hrec c hc'
    · simp [chunkTextFuel, hs] at h
      subst h
      simp at hc

/-- The next cursor never exceeds the boundary it is derived from. -/
theorem chunkNext_le (text : List Char) (ov : Nat) (e : Int) :
    chunkNext text ov e ≤ e := by
  unfold chunkNext
  split <;> omega

/-- The chunk list of a run is the list of per-iteration trimmed chunks with
the empty (skipped) ones filtered out. -/
theorem chunkTextFuel_eq_iters (text : List Char) (cs ov : Nat) :
    ∀ (fuel : Nat) (s : Int),
      chunkTextFuel text cs ov fuel s
        = (chunkItersFuel text cs ov fuel s).map
            (fun rs => (rs.map ChunkIter.chunk).filter fun c => c ≠ []) := by
  intro fuel
  induction fuel with
  | zero =>
    intro s
    by_cases hs : s < (text.length : Int) <;>
      simp [chunkTextFuel, chunkItersFuel, hs]
  | succ n ih =>
    intro s
    by_cases hs : s < (text.length : Int)
    · simp only [chunkTextFuel, chunkItersFuel, if_pos hs]
      rw [ih (chunkNext text ov (chunkEnd text cs s))]
      cases hrec : chunkItersFuel text cs ov n
          (chunkNext text ov (chunkEnd text cs s)) with
      | none => simp
      | some rest =>
        by_cases hch : stripPy (pySlice text s (chunkEnd text cs s)) = [] <;>
          simp [hch, List.filter_cons]
    · simp [chunkTextFuel, chunkItersFuel, hs]

/-- Every position of the text from the current cursor onwards lies in the
span of some iteration of a terminating run. -/
theorem chunkIters_cover (text : List Char) (cs ov : Nat) :
    ∀ (fuel : Nat) (s : Int) (recs : List ChunkIter),
      chunkItersFuel text cs ov fuel s = some recs →
      ∀ p : Int, s ≤ p → p < (text.length : Int) →
        ∃ r ∈ recs, r.start ≤ p ∧ p < r.stop := by
  intro fuel
  induction fuel with
  | zero =>
    intro s recs h p hsp hpL
    by_cases hs : s < (text.length : Int)
    · simp [chunkItersFuel, hs] at h
    · omega
  | succ n ih =>
    intro s recs h p hsp hpL
    by_cases hs : s < (text.length : Int)
    · simp only [chunkItersFuel, if_pos hs] at h
      cases hrec : chunkItersFuel text cs ov n
          (chunkNext text ov (chunkEnd text cs s)) with
      | none => rw [hrec] at h; exact absurd h (by simp)
      | some rest =>
        rw [hrec] at h
        simp only [Option.some.injEq] at h
        subst h
        by_cases hpe : p < chunkEnd text cs s
        · exact ⟨_, List.mem_cons_self _ _, hsp, hpe⟩
        · have hnext : chunkNext text ov (chunkEnd text cs s) ≤ p := by
            unfold chunkNext
            split <;> omega
          obtain ⟨r, hr, h1, h2⟩ := ih _ rest hrec p hnext hpL
          exact ⟨r, List.mem_cons_of_mem _ hr, h1, h2⟩
    · omega

/-- In every recorded iteration, the chunk is the trimmed slice of its span. -/
theorem chunkIters_chunk_eq (text : List Char) (cs ov : Nat) :
    ∀ (fuel : Nat) (s : Int) (recs : List ChunkIter),
      chunkItersFuel text cs ov fuel s = some recs →
      ∀ r ∈ recs, r.chunk = stripPy (pySlice text r.start r.stop) := by
  intro fuel
  induction fuel with
  | zero =>
    intro s recs h r hr
    by_cases hs : s < (text.length : Int) <;> simp [chunkItersFuel, hs] at h
    subst h
    simp at hr
  | succ n ih =>
    intro s recs h r hr
    by_cases hs : s < (text.length : Int)
    · simp only [chunkItersFuel, if_pos hs] at h
      cases hrec : chunkItersFuel text cs ov n
          (chunkNext text ov (chunkEnd text cs s)) with
      | none => rw [hrec] at h; exact absurd h (by simp)
      | some rest =>
        rw [hrec] at h
        simp only [Option.some.injEq] at h
        subst h
        rcases List.mem_cons.mp hr with rfl | hr'
        · rfl
        · exact ih _ rest hrec r hr'
    · simp [chunkItersFuel, hs] at h
      subst h
      simp at hr

/-- The recorded iterations start at the current cursor and each one starts
at or before the previous iteration's boundary (`next start = end - overlap
≤ end`). -/
theorem chunkIters_chain (text : List Char) (cs ov : Nat) :
    ∀ (fuel : Nat) (s : Int) (recs : List ChunkIter),
      chunkItersFuel text cs ov fuel s = some recs →
      (∀ r ∈ recs.head?, r.start = s) ∧
      recs.Chain' (fun r r' => r'.start ≤ r.stop) := by
  intro fuel
  induction fuel with
  | zero =>
    intro s recs h
    by_cases hs : s < (text.length : Int) <;> simp [chunkItersFuel, hs] at h
    subst h
    simp
  | succ n ih =>
    intro s recs h
    by_cases hs : s < (text.length : Int)
    · simp only [chunkItersFuel, if_pos hs] at h
      cases hrec : chunkItersFuel text cs ov n
          (chunkNext text ov (chunkEnd text cs s)) with
      | none => rw [hrec] at h; exact absurd h (by simp)
      | some rest =>
        rw [hrec] at h
        simp only [Option.some.injEq] at h
        subst h
        obtain ⟨ihhead, ihchain⟩ := ih _ rest hrec
        refine ⟨by simp, List.chain'_cons'.mpr ⟨?_, ihchain⟩⟩
        intro y hy
        have := ihhead y hy
        have hle := chunkNext_le text ov (chunkEnd text cs s)
        simp only [this]
        exact hle
    · simp [chunkItersFuel, hs] at h
      subst h
      simp

/-- C3: in a terminating run of `chunk_text` (cursor started at 0), the
spans `[start, stop)` of the loop iterations cover every character position
of the input, each iteration's span starts at or before the previous one's
boundary (`next start = end - overlap ≤ end`), and the only spans missing
from the emitted output are those whose chunk was whitespace-trimmed to
emptiness — so every position is covered by an emitted chunk's span, modulo
the per-chunk trimming. -/
theorem c3_coverage (text : List Char) (chunk_size overlap fuel : Nat)
    (recs : List ChunkIter) (hov : overlap < chunk_size)
    (hrun : chunkItersFuel text chunk_size overlap fuel 0 = some recs) :
    chunkTextFuel text chunk_size overlap fuel 0
      = some ((recs.map ChunkIter.chunk).filter fun c => c ≠ []) ∧
    (∀ p : Int, 0 ≤ p → p < (text.length : Int) →
      ∃ r ∈ recs, r.start ≤ p ∧ p < r.stop ∧
        (r.chunk ≠ [] ∨ stripPy (pySlice text r.start r.stop) = [])) ∧
    recs.Chain' (fun r r' => r'.start ≤ r.stop) := by
  refine ⟨?_, ?_, (chunkIters_chain text chunk_size overlap fuel 0 recs hrun).2⟩
  · rw [chunkTextFuel_eq_iters text chunk_size overlap fuel 0, hrun]
    rfl
  · intro p hp0 hpL
    obtain ⟨r, hr, h1, h2⟩ :=
      chunkIters_cover text chunk_size overlap fuel 0 recs hrun p hp0 hpL
    refine ⟨r, hr, h1, h2, ?_⟩
    by_cases hch : r.chunk = []
    · exact Or.inr ((chunkIters_chunk_eq text chunk_size overlap fuel 0 recs
        hrun r hr) ▸ hch)
    · exact Or.inl hch

/-- Witness for C3 on the concrete run over `"abcdef"` with
`chunk_size = 4`, `overlap = 1`: position 2 is covered. -/
theorem c3_witness :
    chunkTextFuel ['a', 'b', 'c', 'd', 'e', 'f'] 4 1 3 0
      = some [['a', 'b', 'c', 'd'], ['d', 'e', 'f']] ∧
    ∃ r ∈ [ChunkIter.mk 0 4 ['a', 'b', 'c', 'd'],
           ChunkIter.mk 3 7 ['d', 'e', 'f']],
      r.start ≤ (2 : Int) ∧ (2 : Int) < r.stop ∧
        (r.chunk ≠ [] ∨
          stripPy (pySlice ['a', 'b', 'c', 'd', 'e', 'f'] r.start r.stop) = []) := by
  have h := c3_coverage ['a', 'b', 'c', 'd', 'e', 'f'] 4 1 3
    [ChunkIter.mk 0 4 ['a', 'b', 'c', 'd'], ChunkIter.mk 3 7 ['d', 'e', 'f']]
    (by decide) (by decide)
  exact ⟨h.1.trans (by decide), h.2.1 2 (by decide) (by decide)⟩

/-- Witness for C10 on the concrete run over `"ab"`. -/
theorem c10_witness :
    ['a', 'b'] ≠ [] ∧ stripPy ['a', 'b'] = ['a', 'b'] ∧
      ['a', 'b'].length ≤ 5 + 100 := by
  have h := c10_chunk_invariants ['a', 'b'] 5 0 1 [['a', 'b']] (by decide)
  exact h ['a', 'b'] (by simp)

/-! ## Facts about line splitting and stripping (follow-up parsing) -/

/-- A split never produces the empty list of pieces. -/
theorem splitNl_ne_nil (s : List Char) : splitNl s ≠ [] := by
  cases s with
  | nil => simp [splitNl]
  | cons c t =>
    by_cases hc : c = '\n'
    · simp [splitNl, hc]
    · cases hsp : splitNl t <;> simp [splitNl, hc, hsp]

/-- Stripping ignores a leading whitespace character. -/
theorem strip_cons_ws (c : Char) (l : List Char) (hc : isPySpace c = true) :
    stripPy (c :: l) = stripPy l := by
  simp [stripPy, List.dropWhile_cons, hc]

/-- Stripping ignores a trailing whitespace character. -/
theorem strip_append_ws (l : List Char) (c : Char) (hc : isPySpace c = true) :
    stripPy (l ++ [c]) = stripPy l := by
  by_cases hl : l.dropWhile isPySpace = []
  · have h1 : (l ++ [c]).dropWhile isPySpace = [] := by
      rw [List.dropWhile_append]
      simp [hl, List.dropWhile_cons, hc]
    simp [stripPy, h1, hl]
  · have h1 : (l ++ [c]).dropWhile isPySpace = l.dropWhile isPySpace ++ [c] := by
      rw [List.dropWhile_append]
      simp [List.isEmpty_iff, hl]
    simp [stripPy, h1, List.dropWhile_cons, hc]

/-- How `split('\n')` reacts to appending one character. -/
theorem splitNl_append_singleton (s : List Char) (c : Char) :
    splitNl (s ++ [c])
      = if c = '\n' then splitNl s ++ [[]] else appendLastNl (splitNl s) c := by
  induction s with
  | nil =>
    by_cases hc : c = '\n' <;> simp [splitNl, appendLastNl, hc]
  | cons a t ih =>
    by_cases ha : a = '\n'
    · subst ha
      by_cases hc : c = '\n'
      · subst hc
        simp [splitNl, ih]
      · cases hsp : splitNl t with
        | nil => exact absurd hsp (splitNl_ne_nil t)
        | cons l0 ls0 =>
          simp [splitNl, hc, ih, hsp, appendLastNl]
    · cases hsp : splitNl t with
      | nil => exact absurd hsp (splitNl_ne_nil t)
      | cons l0 ls0 =>
        by_cases hc : c = '\n'
        · subst hc
          simp [splitNl, ha, ih, hsp]
        · cases ls0 with
          | nil => simp [splitNl, ha, hc, ih, hsp, appendLastNl]
          | cons l1 ls1 => simp [splitNl, ha, hc, ih, hsp, appendLastNl]

/-- Appending a whitespace character to the last piece does not change the
stripped non-blank pieces. -/
theorem filter_appendLastNl (ls : List (List Char)) (c : Char)
    (hc : isPySpace c = true) :
    (((appendLastNl ls c).map stripPy).filter fun l => l ≠ [])
      = ((ls.map stripPy).filter fun l => l ≠ []) := by
  induction ls with
  | nil => simp [appendLastNl, stripPy, List.dropWhile_cons, hc]
  | cons l ls ih =>
    cases ls with
    | nil => simp [appendLastNl, strip_append_ws l c hc]
    | cons l2 ls2 =>
      simp only [appendLastNl, List.map_cons, List.filter_cons, ih]

/-- Dropping leading whitespace does not change the stripped non-blank
lines. -/
theorem filter_splitNl_dropWhile (l : List Char) :
    (((splitNl (l.dropWhile isPySpace)).map stripPy).filter fun x => x ≠ [])
      = ((splitNl l).map stripPy).filter fun x => x ≠ [] := by
  induction l with
  | nil => rfl
  | cons c t ih =>
    by_cases hc : isPySpace c = true
    · rw [List.dropWhile_cons, if_pos hc, ih]
      by_cases hnl : c = '\n'
      · simp [splitNl, hnl, stripPy]
      · cases hsp : splitNl t with
        | nil => exact absurd hsp (splitNl_ne_nil t)
        | cons l0 ls0 =>
          simp [splitNl, hnl, hsp, List.filter_cons, strip_cons_ws c l0 hc]
    · rw [List.dropWhile_cons, if_neg (by simpa using hc)]

/-- Dropping trailing whitespace does not change the stripped non-blank
lines. -/
theorem filter_splitNl_stripTrail (l : List Char) :
    (((splitNl (stripTrail l)).map stripPy).filter fun x => x ≠ [])
      = ((splitNl l).map stripPy).filter fun x => x ≠ [] := by
  induction l using List.reverseRecOn with
  | nil => rfl
  | append_singleton t c ih =>
    by_cases hc : isPySpace c = true
    · have h1 : stripTrail (t ++ [c]) = stripTrail t := by
        simp [stripTrail, List.dropWhile_cons, hc]
      rw [h1, ih, splitNl_append_singleton]
      by_cases hnl : c = '\n'
      · simp [hnl, stripPy]
      · rw [if_neg hnl, filter_appendLastNl _ _ hc]
    · have h1 : stripTrail (t ++ [c]) = t ++ [c] := by
        simp [stripTrail, List.dropWhile_cons, hc]
      rw [h1]

/-- Stripping the whole text before splitting does not change the stripped
non-blank lines: the parsed follow-up lines of `text.strip()` are those of
`text` itself. -/
theorem filter_splitNl_stripPy (s : List Char) :
    (((splitNl (stripPy s)).map stripPy).filter fun x => x ≠ [])
      = ((splitNl s).map stripPy).filter fun x => x ≠ [] := by
  have h : stripPy s = stripTrail (s.dropWhile isPySpace) := rfl
  rw [h, filter_splitNl_stripTrail, filter_splitNl_dropWhile]

/-- C6: for every LLM output text, `generate_followup_questions` returns the
first at most 3 non-empty (after per-line trimming) lines of that output —
hence the result has length ≤ 3 and contains no blank entries — and on an
LLM call failure it returns the empty list. -/
theorem c6_followup_parsing (llm : LLM) (query response : List Char) :
    (∀ t, llm (followupPrompt query response) = .ok t →
      generate_followup_questions llm query response
        = (((splitNl t).map stripPy).filter fun q => q ≠ []).take 3) ∧
    (generate_followup_questions llm query response).length ≤ 3 ∧
    (∀ q ∈ generate_followup_questions llm query response, q ≠ []) ∧
    (∀ e, llm (followupPrompt query response) = .error e →
      generate_followup_questions llm query response = []) := by
  refine ⟨?_, ?_, ?_, ?_⟩
  · intro t ht
    simp only [generate_followup_questions, ht]
    rw [filter_splitNl_stripPy]
  · cases hres : llm (followupPrompt query response) with
    | error e => simp [generate_followup_questions, hres]
    | ok t =>
      simp only [generate_followup_questions, hres]
      exact List.length_take_le 3 _
  · intro q hq
    cases hres : llm (followupPrompt query response) with
    | error e => simp [generate_followup_questions, hres] at hq
    | ok t =>
      simp only [generate_followup_questions, hres] at hq
      have h1 := List.mem_filter.mp (List.mem_of_mem_take hq)
      simpa using h1.2
  · intro e he
    simp [generate_followup_questions, he]

/-- Witness for C6 on the concrete LLM output `"A\n\nB\nC\nD"`: exactly the
first three non-blank lines come back. -/
theorem c6_witness :
    generate_followup_questions
        (fun _ => .ok ['A', '\n', '\n', 'B', '\n', 'C', '\n', 'D']) [] []
      = [['A'], ['B'], ['C']] ∧
    (generate_followup_questions
        (fun _ => .ok ['A', '\n', '\n', 'B', '\n', 'C', '\n', 'D']) [] []).length ≤ 3 := by
  have h := c6_followup_parsing
    (fun _ => .ok ['A', '\n', '\n', 'B', '\n', 'C', '\n', 'D']) [] []
  exact ⟨(h.1 _ rfl).trans (by decide), h.2.1⟩

end DocChat
